import Mathlib

/-!
Verification development for the mapgen-ai layered map editor.

The definitions below are a shallow embedding of the repository's core:
the RGBA pixel algorithms of src/services/imageUtils.ts, the canvas
assembly and inverse crop of src/services/geminiService.ts, and the layer
store, history and generation handlers of src/App.tsx.

Modelling conventions:
* an RGBA 8-bit pixel buffer (canvas ImageData) is a width, a height and a
  total pixel function; encoding to and decoding from base64 data URLs is
  a browser primitive and is identified with the buffer itself;
* JavaScript numbers holding world coordinates are modelled as integers
  (every coordinate the program constructs is integral); the one genuinely
  fractional computation, the inverse-crop scale of the tile stitcher, is
  modelled over the rationals;
* ctx.drawImage with a destination rectangle is modelled as nearest-pixel
  resampling, and source-over blending is the browser primitive: an opaque
  source pixel replaces the destination, a fully transparent one leaves it,
  and partial alpha mixes at 8-bit precision.
-/

/-- One RGBA pixel, each channel in 0..255 (a Uint8ClampedArray cell). -/
structure Color where
  r : Nat
  g : Nat
  b : Nat
  a : Nat
deriving DecidableEq, Repr

/-- A decoded pixel buffer: canvas ImageData of a given width and height.
The pixel function is total; only indices below the bounds are meaningful. -/
structure ImageBuf where
  width : Nat
  height : Nat
  pix : Nat → Nat → Color

/-- Axis-aligned rectangle in world units, the Rect interface of types.ts. -/
structure Rect where
  x : Int
  y : Int
  width : Int
  height : Int
deriving DecidableEq, Repr

/-- The two layer kinds of the MapLayer interface. -/
inductive LayerType where
  | base
  | object
deriving DecidableEq, Repr

/-- A placed raster layer, the MapLayer interface of types.ts. -/
structure MapLayer where
  id : String
  name : String
  type : LayerType
  imageData : ImageBuf
  x : Int
  y : Int
  width : Int
  height : Int
  visible : Bool
  zIndex : Int

/-- Manhattan distance over the R, G, B channels between a pixel and a
target color, the expression
Math.abs(r - targetR) + Math.abs(g - targetG) + Math.abs(b - targetB). -/
def rgbDist (c : Color) (tr tg tb : Nat) : Nat :=
  ((c.r : Int) - tr).natAbs + ((c.g : Int) - tg).natAbs + ((c.b : Int) - tb).natAbs

/-- Loop body of removeMagentaBackground in src/services/imageUtils.ts: if
the pixel is within Manhattan distance 100 of pure magenta (255, 0, 255),
its alpha is set to 0; otherwise it is left untouched. -/
def removeMagentaPixel (c : Color) : Color :=
  if rgbDist c 255 0 255 < 100 then { c with a := 0 } else c

/-- removeMagentaBackground of src/services/imageUtils.ts: the keying loop
applied to every pixel of the buffer; dimensions are unchanged. -/
def removeMagentaBackground (img : ImageBuf) : ImageBuf :=
  { width := img.width
    height := img.height
    pix := fun x y => removeMagentaPixel (img.pix x y) }

/-- The keying test reads only R, G, B, and the first pass rewrites only
alpha, so keying a single pixel twice equals keying it once. -/
theorem removeMagentaPixel_idem (c : Color) :
    removeMagentaPixel (removeMagentaPixel c) = removeMagentaPixel c := by
  unfold removeMagentaPixel
  by_cases h : rgbDist c 255 0 255 < 100
  · have h2 : rgbDist { c with a := 0 } 255 0 255 < 100 := by
      simpa [rgbDist] using h
    simp [if_pos h, if_pos h2]
  · simp [if_neg h]

/-- C8: chroma-key removal (key (255, 0, 255), Manhattan threshold 100) is
idempotent: applying removeMagentaBackground twice yields the same buffer
as applying it once. -/
theorem c8_remove_magenta_idempotent (img : ImageBuf) :
    removeMagentaBackground (removeMagentaBackground img) =
      removeMagentaBackground img := by
  unfold removeMagentaBackground
  refine congrArg (ImageBuf.mk img.width img.height) ?_
  funext x y
  exact removeMagentaPixel_idem (img.pix x y)

/-- Loop body of createDifferenceLayer in src/services/imageUtils.ts: given
the original pixel and the generated pixel, if their Manhattan RGB distance
is below 35 the pixel is treated as unchanged (alpha 0), otherwise the
generated pixel is kept fully opaque (alpha forced to 255). -/
def differencePixel (c1 c2 : Color) : Color :=
  let dist := ((c1.r : Int) - c2.r).natAbs + ((c1.g : Int) - c2.g).natAbs
    + ((c1.b : Int) - c2.b).natAbs
  if dist < 35 then { c2 with a := 0 } else { c2 with a := 255 }

/-- createDifferenceLayer of src/services/imageUtils.ts: the output buffer
takes the generated buffer's dimensions; the original is first drawn scaled
to those dimensions (nearest-pixel model of the canvas scaling used to
absorb resolution drift), then each pixel is compared with the generated
buffer by differencePixel. -/
def createDifferenceLayer (original generated : ImageBuf) : ImageBuf :=
  let width := generated.width
  let height := generated.height
  { width := width
    height := height
    pix := fun x y =>
      differencePixel
        (original.pix (x * original.width / width) (y * original.height / height))
        (generated.pix x y) }

/-- C7: difference extraction uses the generated buffer's dimensions, and
for equally-shaped buffers follows the per-pixel Manhattan rule with
threshold 35 (alpha 0 when below, generated pixel with alpha 255 when not);
applied to two identical buffers every in-range pixel comes out with
alpha 0, i.e. the result is fully transparent. -/
theorem c7_difference_layer (a b : ImageBuf) (x y : Nat)
    (hw : a.width = b.width) (hh : a.height = b.height)
    (hx : x < b.width) (hy : y < b.height) :
    (createDifferenceLayer a b).width = b.width ∧
    (createDifferenceLayer a b).height = b.height ∧
    (createDifferenceLayer a b).pix x y = differencePixel (a.pix x y) (b.pix x y) ∧
    ((createDifferenceLayer b b).pix x y).a = 0 := by
  have hwpos : 0 < b.width := Nat.lt_of_le_of_lt (Nat.zero_le x) hx
  have hhpos : 0 < b.height := Nat.lt_of_le_of_lt (Nat.zero_le y) hy
  have hxw : x * b.width / b.width = x := Nat.mul_div_cancel x hwpos
  have hyh : y * b.height / b.height = y := Nat.mul_div_cancel y hhpos
  refine ⟨rfl, rfl, ?_, ?_⟩
  · simp only [createDifferenceLayer, hw, hh, hxw, hyh]
  · simp only [createDifferenceLayer, hxw, hyh, differencePixel]
    simp

/-- Concrete instance of C7: evaluated at a 2-by-2 solid buffer, the result
of differencing the buffer against itself is transparent at pixel (1, 0). -/
theorem c7_difference_layer_witness :
    (1 : Nat) < 2 ∧
      ((createDifferenceLayer (ImageBuf.mk 2 2 (fun _ _ => Color.mk 10 20 30 255))
          (ImageBuf.mk 2 2 (fun _ _ => Color.mk 10 20 30 255))).pix 1 0).a = 0 :=
  ⟨by decide,
    (c7_difference_layer (ImageBuf.mk 2 2 (fun _ _ => Color.mk 10 20 30 255))
      (ImageBuf.mk 2 2 (fun _ _ => Color.mk 10 20 30 255)) 1 0 rfl rfl
      (by decide) (by decide)).2.2.2⟩

/-- Insertion step of a stable ascending sort on zIndex. An element moves
past exactly those already-sorted elements whose zIndex is strictly
smaller, so among equal keys earlier list elements stay first. -/
def insertByZ (a : MapLayer) : List MapLayer → List MapLayer
  | [] => [a]
  | b :: l => if a.zIndex ≤ b.zIndex then a :: b :: l else b :: insertByZ a l

/-- Model of [...layers].sort((a, b) => a.zIndex - b.zIndex): ECMAScript
Array.prototype.sort is stable, which this insertion sort realizes. -/
def sortByZ : List MapLayer → List MapLayer
  | [] => []
  | a :: l => insertByZ a (sortByZ l)

/-- Draw order of compositeLayers in src/services/imageUtils.ts: filter to
visible layers, then sort ascending by zIndex. -/
def compositeDrawOrder (layers : List MapLayer) : List MapLayer :=
  sortByZ (layers.filter fun l => l.visible)

/-- Draw order of getCompositeRect in src/services/imageUtils.ts: sort
ascending by zIndex, then filter to visible layers. -/
def rectDrawOrder (layers : List MapLayer) : List MapLayer :=
  (sortByZ layers).filter fun l => l.visible

theorem mem_insertByZ (a x : MapLayer) (l : List MapLayer) :
    x ∈ insertByZ a l ↔ x = a ∨ x ∈ l := by
  induction l with
  | nil => simp [insertByZ]
  | cons b t ih =>
    by_cases h : a.zIndex ≤ b.zIndex
    · simp [insertByZ, h]
    · simp only [insertByZ, if_neg h, List.mem_cons, ih]
      tauto

theorem pairwise_insertByZ (a : MapLayer) (l : List MapLayer)
    (hl : List.Pairwise (fun x y => x.zIndex ≤ y.zIndex) l) :
    List.Pairwise (fun x y => x.zIndex ≤ y.zIndex) (insertByZ a l) := by
  induction l with
  | nil => simp [insertByZ]
  | cons b t ih =>
    rw [List.pairwise_cons] at hl
    by_cases h : a.zIndex ≤ b.zIndex
    · rw [insertByZ, if_pos h, List.pairwise_cons]
      refine ⟨?_, List.pairwise_cons.mpr hl⟩
      intro x hx
      rcases List.mem_cons.mp hx with hx | hx
      · exact hx ▸ h
      · exact le_trans h (hl.1 x hx)
    · rw [insertByZ, if_neg h, List.pairwise_cons]
      refine ⟨?_, ih hl.2⟩
      intro x hx
      rcases (mem_insertByZ a x t).mp hx with hx | hx
      · exact hx ▸ le_of_lt (lt_of_not_le h)
      · exact hl.1 x hx

theorem pairwise_sortByZ (l : List MapLayer) :
    List.Pairwise (fun x y => x.zIndex ≤ y.zIndex) (sortByZ l) := by
  induction l with
  | nil => exact List.Pairwise.nil
  | cons a t ih => exact pairwise_insertByZ a (sortByZ t) ih

theorem filter_z_insertByZ (a : MapLayer) (l : List MapLayer) (z : Int) :
    (insertByZ a l).filter (fun x => x.zIndex == z) =
      if a.zIndex == z then a :: l.filter (fun x => x.zIndex == z)
      else l.filter (fun x => x.zIndex == z) := by
  induction l with
  | nil =>
    by_cases ha : a.zIndex == z <;> simp [insertByZ, List.filter, ha]
  | cons b t ih =>
    by_cases h : a.zIndex ≤ b.zIndex
    · rw [insertByZ, if_pos h]
      by_cases ha : a.zIndex == z <;> simp [List.filter_cons, ha]
    · have hba : b.zIndex < a.zIndex := lt_of_not_le h
      rw [insertByZ, if_neg h]
      by_cases ha : a.zIndex == z
      · have hb : (b.zIndex == z) = false := by
          have : b.zIndex ≠ z := by
            have haz : a.zIndex = z := by simpa using ha
            omega
          simpa using this
        simp [List.filter_cons, hb, ih, ha]
      · by_cases hb : b.zIndex == z <;> simp [List.filter_cons, hb, ih, ha]

/-- Stability of the zIndex sort: for every key z, the sorted list restricted
to layers of zIndex z is exactly the input restricted to zIndex z, in the
original sequence order. -/
theorem filter_z_sortByZ (l : List MapLayer) (z : Int) :
    (sortByZ l).filter (fun x => x.zIndex == z) =
      l.filter (fun x => x.zIndex == z) := by
  induction l with
  | nil => rfl
  | cons a t ih =>
    rw [sortByZ, filter_z_insertByZ]
    by_cases ha : a.zIndex == z <;> simp [List.filter_cons, ha, ih]

theorem filter_visible_z_comm (l : List MapLayer) (z : Int) :
    (l.filter fun x => x.visible).filter (fun x => x.zIndex == z) =
      (l.filter fun x => x.zIndex == z).filter (fun x => x.visible) := by
  induction l with
  | nil => rfl
  | cons a t ih =>
    by_cases h1 : a.visible <;> by_cases h2 : a.zIndex == z <;>
      simp [List.filter_cons, h1, h2, ih]

/-- Source-over compositing of one source pixel onto a destination pixel,
the browser primitive behind ctx.drawImage: an opaque source replaces the
destination, a fully transparent source leaves it, and partial alpha mixes
premultiplied channels at 8-bit precision. -/
def sourceOver (src dst : Color) : Color :=
  if src.a = 255 then src
  else if src.a = 0 then dst
  else
    let outA := src.a + dst.a * (255 - src.a) / 255
    { r := (src.r * src.a + dst.r * dst.a * (255 - src.a) / 255) / max outA 1
      g := (src.g * src.a + dst.g * dst.a * (255 - src.a) / 255) / max outA 1
      b := (src.b * src.b + dst.b * dst.a * (255 - src.a) / 255) / max outA 1
      a := outA }

/-- Nearest-pixel sample of a buffer stretched to a destination rectangle of
size dw-by-dh, at local destination coordinates (lx, ly); models the
resampling ctx.drawImage performs when a layer's placement size differs
from its native resolution. -/
def sampleImage (img : ImageBuf) (dw dh lx ly : Int) : Color :=
  img.pix (lx * img.width / dw).toNat (ly * img.height / dh).toNat

/-- Effect on canvas pixel (px, py) of
ctx.drawImage(img, layer.x - ox, layer.y - oy, layer.width, layer.height):
if the pixel lies inside the layer's placement rectangle, the sampled layer
pixel is composited source-over onto the destination; otherwise the
destination is untouched. -/
def drawLayerPixel (ox oy : Int) (layer : MapLayer) (px py : Nat)
    (dst : Color) : Color :=
  let dx := layer.x - ox
  let dy := layer.y - oy
  if dx ≤ (px : Int) ∧ (px : Int) < dx + layer.width ∧
      dy ≤ (py : Int) ∧ (py : Int) < dy + layer.height then
    sourceOver
      (sampleImage layer.imageData layer.width layer.height
        ((px : Int) - dx) ((py : Int) - dy)) dst
  else dst

/-- The opaque black background that getCompositeRect fills first. -/
def blackOpaque : Color := Color.mk 0 0 0 255

/-- The transparent pixel a fresh canvas starts from. -/
def transparent : Color := Color.mk 0 0 0 0

/-- Pixel semantics of getCompositeRect in src/services/imageUtils.ts: fill
opaque black, then draw every layer of rectDrawOrder in order, each offset
by the requested rectangle's origin. -/
def getCompositeRectPixel (rect : Rect) (layers : List MapLayer)
    (px py : Nat) : Color :=
  (rectDrawOrder layers).foldl
    (fun dst l => drawLayerPixel rect.x rect.y l px py dst) blackOpaque

/-- Minimum x of a layer list; compositeLayers seeds minX with Infinity, so
over the nonempty lists it is used on the fold ignores the seed. -/
def layersMinX : List MapLayer → Int
  | [] => 0
  | l :: rest => rest.foldl (fun m x => min m x.x) l.x

/-- Minimum y of a layer list, as for layersMinX. -/
def layersMinY : List MapLayer → Int
  | [] => 0
  | l :: rest => rest.foldl (fun m x => min m x.y) l.y

/-- Pixel semantics of compositeLayers in src/services/imageUtils.ts: the
canvas starts transparent; when an explicit width (resp. height) is
requested the draw offset is 0, otherwise (the export path, width passed
as 0) it is the minimum x (resp. y) of the visible layers; the visible
layers are drawn sorted ascending by zIndex. -/
def compositeLayersPixel (width height : Int) (layers : List MapLayer)
    (px py : Nat) : Color :=
  let visibleLayers := layers.filter fun l => l.visible
  let offsetX := if width = 0 then layersMinX visibleLayers else 0
  let offsetY := if height = 0 then layersMinY visibleLayers else 0
  (sortByZ visibleLayers).foldl
    (fun dst l => drawLayerPixel offsetX offsetY l px py dst) transparent

/-- C1: both compositors draw the visible layers sorted ascending by zIndex
with the stable-sort guarantee (for every key z the draw order restricted
to zIndex z keeps the original sequence order of the visible layers), and
for a scene of two overlapping equal-zIndex layers the later-in-sequence
layer's opaque pixel wins at the overlap, in getCompositeRect and in
compositeLayers alike. -/
theorem c1_composite_z_order :
    (∀ layers : List MapLayer,
      List.Pairwise (fun x y => x.zIndex ≤ y.zIndex) (rectDrawOrder layers) ∧
      List.Pairwise (fun x y => x.zIndex ≤ y.zIndex) (compositeDrawOrder layers)) ∧
    (∀ (layers : List MapLayer) (z : Int),
      (rectDrawOrder layers).filter (fun x => x.zIndex == z) =
        (layers.filter fun l => l.visible).filter (fun x => x.zIndex == z) ∧
      (compositeDrawOrder layers).filter (fun x => x.zIndex == z) =
        (layers.filter fun l => l.visible).filter (fun x => x.zIndex == z)) ∧
    (∀ (rect : Rect) (l1 l2 : MapLayer) (px py : Nat),
      l1.visible = true → l2.visible = true → l1.zIndex = l2.zIndex →
      l2.x - rect.x ≤ (px : Int) → (px : Int) < l2.x - rect.x + l2.width →
      l2.y - rect.y ≤ (py : Int) → (py : Int) < l2.y - rect.y + l2.height →
      (sampleImage l2.imageData l2.width l2.height
        ((px : Int) - (l2.x - rect.x)) ((py : Int) - (l2.y - rect.y))).a = 255 →
      getCompositeRectPixel rect [l1, l2] px py =
        sampleImage l2.imageData l2.width l2.height
          ((px : Int) - (l2.x - rect.x)) ((py : Int) - (l2.y - rect.y))) ∧
    (∀ (width height : Int) (l1 l2 : MapLayer) (px py : Nat),
      width ≠ 0 → height ≠ 0 →
      l1.visible = true → l2.visible = true → l1.zIndex = l2.zIndex →
      l2.x ≤ (px : Int) → (px : Int) < l2.x + l2.width →
      l2.y ≤ (py : Int) → (py : Int) < l2.y + l2.height →
      (sampleImage l2.imageData l2.width l2.height
        ((px : Int) - l2.x) ((py : Int) - l2.y)).a = 255 →
      compositeLayersPixel width height [l1, l2] px py =
        sampleImage l2.imageData l2.width l2.height
          ((px : Int) - l2.x) ((py : Int) - l2.y)) := by
  refine ⟨?_, ?_, ?_, ?_⟩
  · intro layers
    constructor
    · exact (pairwise_sortByZ layers).sublist (List.filter_sublist _)
    · exact pairwise_sortByZ _
  · intro layers z
    constructor
    · rw [rectDrawOrder, filter_visible_z_comm (sortByZ layers) z,
        filter_z_sortByZ, ← filter_visible_z_comm layers z]
    · exact filter_z_sortByZ _ z
  · intro rect l1 l2 px py hv1 hv2 hz hx1 hx2 hy1 hy2 ha
    have hsort : sortByZ [l1, l2] = [l1, l2] := by
      simp [sortByZ, insertByZ, le_of_eq hz]
    have horder : rectDrawOrder [l1, l2] = [l1, l2] := by
      rw [rectDrawOrder, hsort]
      simp [List.filter_cons, hv1, hv2]
    rw [getCompositeRectPixel, horder]
    show drawLayerPixel rect.x rect.y l2 px py _ = _
    rw [drawLayerPixel]
    rw [if_pos ⟨hx1, hx2, hy1, hy2⟩]
    rw [sourceOver, if_pos ha]
  · intro width height l1 l2 px py hw hh hv1 hv2 hz hx1 hx2 hy1 hy2 ha
    have hfil : List.filter (fun l => l.visible) [l1, l2] = [l1, l2] := by
      simp [List.filter_cons, hv1, hv2]
    have hsort : sortByZ [l1, l2] = [l1, l2] := by
      simp [sortByZ, insertByZ, le_of_eq hz]
    rw [compositeLayersPixel]
    simp only [hfil, hsort, if_neg hw, if_neg hh]
    show drawLayerPixel 0 0 l2 px py _ = _
    rw [drawLayerPixel]
    simp only [Int.sub_zero]
    rw [if_pos ⟨hx1, hx2, hy1, hy2⟩]
    rw [sourceOver, if_pos ha]

/-- A 4-by-4 solid buffer used to instantiate theorems on concrete scenes. -/
def solidBuf (c : Color) : ImageBuf := ImageBuf.mk 4 4 (fun _ _ => c)

/-- Concrete lower layer for the C1 witness: zIndex 5, earlier in sequence. -/
def witLayerA : MapLayer :=
  MapLayer.mk "A" "A" LayerType.object (solidBuf (Color.mk 1 2 3 255))
    0 0 4 4 true 5

/-- Concrete upper layer for the C1 witness: zIndex 5, later in sequence. -/
def witLayerB : MapLayer :=
  MapLayer.mk "B" "B" LayerType.object (solidBuf (Color.mk 9 8 7 255))
    0 0 4 4 true 5

/-- Concrete instance of C1: two overlapping opaque layers at equal zIndex 5;
in both compositors the later-in-sequence layer's pixel (9, 8, 7, 255) wins
at the overlap point (1, 1). -/
theorem c1_composite_z_order_witness :
    getCompositeRectPixel (Rect.mk 0 0 4 4) [witLayerA, witLayerB] 1 1 =
        Color.mk 9 8 7 255 ∧
      compositeLayersPixel 4 4 [witLayerA, witLayerB] 1 1 = Color.mk 9 8 7 255 :=
  ⟨(c1_composite_z_order.2.2.1 (Rect.mk 0 0 4 4) witLayerA witLayerB 1 1
      rfl rfl rfl (by decide) (by decide) (by decide) (by decide)
      (by decide)).trans (by decide),
    (c1_composite_z_order.2.2.2 4 4 witLayerA witLayerB 1 1
      (by decide) (by decide) rfl rfl rfl (by decide) (by decide) (by decide)
      (by decide) (by decide)).trans (by decide)⟩

/-- The slice of App.tsx state that the layer store, history manager and
generation handlers read and write. Transient UI state (active tool,
selection, modal flags, the isGenerating spinner) is not part of the model;
the errorMsg field is the setError toast. -/
structure AppState where
  layers : List MapLayer
  history : List (List MapLayer)
  historyIndex : Int
  viewX : Int
  viewY : Int
  errorMsg : Option String

/-- addToHistory of src/App.tsx: truncate the history right after the
cursor (history.slice(0, historyIndex + 1)), append the new scene, move the
cursor to the new last entry, and make the new scene current. -/
def addToHistory (s : AppState) (newLayers : List MapLayer) : AppState :=
  let newHistory := s.history.take (s.historyIndex + 1).toNat ++ [newLayers]
  { s with layers := newLayers
           history := newHistory
           historyIndex := (newHistory.length : Int) - 1 }

/-- handleUndo of src/App.tsx: when the cursor is above 0, move it one step
back and load that history entry; otherwise do nothing. Indexing out of
range (impossible in reachable states) falls back to the empty scene. -/
def handleUndo (s : AppState) : AppState :=
  if 0 < s.historyIndex then
    { s with historyIndex := s.historyIndex - 1
             layers := s.history.getD (s.historyIndex - 1).toNat [] }
  else s

/-- handleRedo of src/App.tsx: when the cursor is before the last entry,
move it one step forward and load that history entry; otherwise nothing. -/
def handleRedo (s : AppState) : AppState :=
  if s.historyIndex < (s.history.length : Int) - 1 then
    { s with historyIndex := s.historyIndex + 1
             layers := s.history.getD (s.historyIndex + 1).toNat [] }
  else s

/-- The history cursor invariant of the spec: cursor between -1 and
length - 1 inclusive. -/
def histInv (s : AppState) : Prop :=
  -1 ≤ s.historyIndex ∧ s.historyIndex ≤ (s.history.length : Int) - 1

/-- C2: from any state whose cursor is a valid history position (every
state after the bootstrap commit), commit A, commit B, undo, undo, redo
yields exactly A as the current scene; the cursor invariant
-1 <= cursor <= length - 1 is preserved by commit, undo and redo; and undo
at or below index 0, like redo at or beyond the last entry, is a no-op. -/
theorem c2_history_round_trip (s : AppState) (A B : List MapLayer)
    (hi : 0 ≤ s.historyIndex)
    (hlen : s.historyIndex ≤ (s.history.length : Int) - 1) :
    (handleRedo (handleUndo (handleUndo
        (addToHistory (addToHistory s A) B)))).layers = A ∧
    (∀ t : AppState, histInv t →
      histInv (addToHistory t A) ∧ histInv (handleUndo t) ∧
        histInv (handleRedo t)) ∧
    (∀ t : AppState, t.historyIndex ≤ 0 → handleUndo t = t) ∧
    (∀ t : AppState, (t.history.length : Int) - 1 ≤ t.historyIndex →
      handleRedo t = t) := by
  have hinv : ∀ (t : AppState) (X : List MapLayer),
      histInv t →
      histInv (addToHistory t X) ∧ histInv (handleUndo t) ∧
        histInv (handleRedo t) := by
    intro t X ht
    obtain ⟨ht1, ht2⟩ := ht
    refine ⟨?_, ?_, ?_⟩
    · constructor <;>
        simp [addToHistory, List.length_append, List.length_take] <;> omega
    · rw [handleUndo]
      split
      · constructor <;> simp <;> omega
      · exact ⟨ht1, ht2⟩
    · rw [handleRedo]
      split
      · constructor <;> simp <;> omega
      · exact ⟨ht1, ht2⟩
  have hnoopU : ∀ t : AppState, t.historyIndex ≤ 0 → handleUndo t = t := by
    intro t ht
    rw [handleUndo, if_neg (by omega)]
  have hnoopR : ∀ t : AppState,
      (t.history.length : Int) - 1 ≤ t.historyIndex → handleRedo t = t := by
    intro t ht
    rw [handleRedo, if_neg (by omega)]
  refine ⟨?_, fun t ht => hinv t A ht, hnoopU, hnoopR⟩
  obtain ⟨n, hiN⟩ : ∃ n : Nat, s.historyIndex = (n : Int) :=
    ⟨s.historyIndex.toNat, by omega⟩
  obtain ⟨ls, h, i, vx, vy, em⟩ := s
  simp only at hiN hlen
  subst hiN
  have hnL : n + 1 ≤ h.length := by omega
  have e1len : (h.take (n + 1)).length = n + 1 := by
    rw [List.length_take]; omega
  have t1 : ((n : Int) + 1).toNat = n + 1 := by omega
  have hgetA : ((h.take (n + 1) ++ [A]) ++ [B]).getD (n + 1) [] = A := by
    rw [List.getD_eq_getElem?_getD,
      List.getElem?_append_left (by simp [e1len]),
      List.getElem?_append_right (by simp [e1len])]
    simp [e1len]
  simp only [addToHistory, t1]
  have L1 : (List.take (n + 1) h ++ [A]).length = n + 2 := by simp [e1len]
  have t2 : (((n + 2 : Nat) : Int) - 1 + 1).toNat = n + 2 := by omega
  simp only [L1, t2, List.take_of_length_le (le_of_eq L1)]
  have L2 : (List.take (n + 1) h ++ [A] ++ [B]).length = n + 3 := by
    simp [e1len]
  have t3 : ((n + 3 : Nat) : Int) - 1 = (n : Int) + 2 := by push_cast; ring
  simp only [L2, t3]
  have e3 : handleUndo
      { layers := B, history := List.take (n + 1) h ++ [A] ++ [B],
        historyIndex := (n : Int) + 2, viewX := vx, viewY := vy,
        errorMsg := em } =
      { layers := A, history := List.take (n + 1) h ++ [A] ++ [B],
        historyIndex := (n : Int) + 1, viewX := vx, viewY := vy,
        errorMsg := em } := by
    rw [handleUndo, if_pos (show (0 : Int) < (n : Int) + 2 by omega)]
    have t5 : (n : Int) + 2 - 1 = (n : Int) + 1 := by ring
    simp only [t5, t1, hgetA]
  have e4 : handleUndo
      { layers := A, history := List.take (n + 1) h ++ [A] ++ [B],
        historyIndex := (n : Int) + 1, viewX := vx, viewY := vy,
        errorMsg := em } =
      { layers := (List.take (n + 1) h ++ [A] ++ [B]).getD n [],
        history := List.take (n + 1) h ++ [A] ++ [B],
        historyIndex := (n : Int), viewX := vx, viewY := vy,
        errorMsg := em } := by
    rw [handleUndo, if_pos (show (0 : Int) < (n : Int) + 1 by omega)]
    have t7 : (n : Int) + 1 - 1 = (n : Int) := by ring
    have t8 : ((n : Int)).toNat = n := by omega
    simp only [t7, t8]
  have e5 : handleRedo
      { layers := (List.take (n + 1) h ++ [A] ++ [B]).getD n [],
        history := List.take (n + 1) h ++ [A] ++ [B],
        historyIndex := (n : Int), viewX := vx, viewY := vy,
        errorMsg := em } =
      { layers := A, history := List.take (n + 1) h ++ [A] ++ [B],
        historyIndex := (n : Int) + 1, viewX := vx, viewY := vy,
        errorMsg := em } := by
    rw [handleRedo]
    simp only [L2]
    rw [if_pos (show (n : Int) < ((n + 3 : Nat) : Int) - 1 by omega)]
    simp only [t1, hgetA]
  rw [e3, e4, e5]

/-- A post-bootstrap app state with a single committed scene, cursor 0. -/
def witAppState : AppState :=
  AppState.mk [witLayerA] [[witLayerA]] 0 0 0 none

/-- Concrete instance of C2: from the one-entry bootstrap state, committing
scene [witLayerB], committing the empty scene, undoing twice and redoing
once yields [witLayerB] as the current scene. -/
theorem c2_history_round_trip_witness :
    (0 : Int) ≤ witAppState.historyIndex ∧
      (handleRedo (handleUndo (handleUndo
        (addToHistory (addToHistory witAppState [witLayerB]) [])))).layers =
        [witLayerB] :=
  ⟨by decide,
    (c2_history_round_trip witAppState [witLayerB] [] (by decide) (by decide)).1⟩

/-- The grid tile size CANVAS_WIDTH = CANVAS_HEIGHT = 1024 of src/App.tsx. -/
def CANVAS_WIDTH : Int := 1024

/-- Right-neighbor existence test of handleNavigate in src/App.tsx:
layers.some of (base type, |l.x - (targetX + CANVAS_WIDTH)| < EPSILON and
|l.y - targetY| < EPSILON) with EPSILON = 100. -/
def hasRightNeighbor (layers : List MapLayer) (targetX targetY : Int) : Bool :=
  layers.any fun l =>
    decide (l.type = LayerType.base) &&
    decide ((l.x - (targetX + CANVAS_WIDTH)).natAbs < 100) &&
    decide ((l.y - targetY).natAbs < 100)

/-- Left-neighbor existence test of handleNavigate in src/App.tsx. -/
def hasLeftNeighbor (layers : List MapLayer) (targetX targetY : Int) : Bool :=
  layers.any fun l =>
    decide (l.type = LayerType.base) &&
    decide ((l.x - (targetX - CANVAS_WIDTH)).natAbs < 100) &&
    decide ((l.y - targetY).natAbs < 100)

/-- Top-neighbor existence test of handleNavigate in src/App.tsx. -/
def hasTopNeighbor (layers : List MapLayer) (targetX targetY : Int) : Bool :=
  layers.any fun l =>
    decide (l.type = LayerType.base) &&
    decide ((l.x - targetX).natAbs < 100) &&
    decide ((l.y - (targetY - CANVAS_WIDTH)).natAbs < 100)

/-- Bottom-neighbor existence test of handleNavigate in src/App.tsx. -/
def hasBottomNeighbor (layers : List MapLayer) (targetX targetY : Int) : Bool :=
  layers.any fun l =>
    decide (l.type = LayerType.base) &&
    decide ((l.x - targetX).natAbs < 100) &&
    decide ((l.y - (targetY + CANVAS_WIDTH)).natAbs < 100)

/-- A base tile of the fixed 1024 grid placed at (x, y), zIndex 0. -/
def baseTileAt (x y : Int) : MapLayer :=
  MapLayer.mk "base" "base" LayerType.base (solidBuf (Color.mk 3 3 3 255))
    x y 1024 1024 true 0

/-- An object layer placed at (x, y), for the base-only detection check. -/
def objectLayerAt (x y : Int) : MapLayer :=
  MapLayer.mk "obj" "obj" LayerType.object (solidBuf (Color.mk 3 3 3 255))
    x y 1024 1024 true 10

/-- C6: the right-neighbor test holds exactly when some base layer lies
within epsilon 100 of the expected neighbor position on both coordinates;
for a target tile at the origin, a base layer at (1024 + 40, 0) is detected
(distance 40 < 100), one at (1024 + 150, 0) is not (150 >= 100), and an
object layer even at the exact position (1024, 0) is never detected. -/
theorem c6_neighbor_epsilon :
    (∀ (layers : List MapLayer) (tx ty : Int),
      hasRightNeighbor layers tx ty = true ↔
        ∃ l ∈ layers, l.type = LayerType.base ∧
          (l.x - (tx + 1024)).natAbs < 100 ∧ (l.y - ty).natAbs < 100) ∧
    hasRightNeighbor [baseTileAt 0 0, baseTileAt 1064 0] 0 0 = true ∧
    hasRightNeighbor [baseTileAt 0 0, baseTileAt 1174 0] 0 0 = false ∧
    hasRightNeighbor [objectLayerAt 1024 0] 0 0 = false := by
  refine ⟨?_, by decide, by decide, by decide⟩
  intro layers tx ty
  simp [hasRightNeighbor, List.any_eq_true, CANVAS_WIDTH, and_assoc]

/-- Tile-stitch neighbor record of generateSeamlessTexture in
src/services/geminiService.ts: the four optional edge-strip images. -/
structure SeamNeighbors where
  left : Option ImageBuf
  right : Option ImageBuf
  top : Option ImageBuf
  bottom : Option ImageBuf

/-- Content width of the stitching canvas: tile size 1024 plus a 256 strip
for each present horizontal neighbor. -/
def seamContentW (n : SeamNeighbors) : Nat :=
  1024 + (if n.left.isSome then 256 else 0) + (if n.right.isSome then 256 else 0)

/-- Content height of the stitching canvas: tile size 1024 plus a 256 strip
for each present vertical neighbor. -/
def seamContentH (n : SeamNeighbors) : Nat :=
  1024 + (if n.top.isSome then 256 else 0) + (if n.bottom.isSome then 256 else 0)

/-- Horizontal offset of the new-tile region inside the stitching canvas. -/
def seamTargetX (n : SeamNeighbors) : Nat := if n.left.isSome then 256 else 0

/-- Vertical offset of the new-tile region inside the stitching canvas. -/
def seamTargetY (n : SeamNeighbors) : Nat := if n.top.isSome then 256 else 0

/-- Square canvas side: max of content width and height, forced square to
avoid anamorphic distortion by the generator. -/
def seamCanvasSize (n : SeamNeighbors) : Nat :=
  max (seamContentW n) (seamContentH n)

/-- Inverse-crop scale of generateSeamlessTexture: generator output size
1024 divided by the stitching canvas side. -/
def seamScale (n : SeamNeighbors) : ℚ :=
  1024 / (seamCanvasSize n : ℚ)

/-- cropAndResize of src/services/imageUtils.ts: a canvas of the target
dimensions onto which the (x, y, w, h) slice of the source is drawn scaled;
sampling is the nearest-pixel model of the drawImage resampling. -/
def cropAndResize (img : ImageBuf) (x y w h : ℚ) (targetW targetH : Nat) :
    ImageBuf :=
  { width := targetW
    height := targetH
    pix := fun px py =>
      img.pix (Int.toNat (Int.floor (x + px * w / targetW)))
        (Int.toNat (Int.floor (y + py * h / targetH))) }

/-- Crop-back step of generateSeamlessTexture in
src/services/geminiService.ts: scale the target offset and the 1024 tile
size by seamScale, crop there from the generated buffer and resize to the
native 1024-by-1024 tile. -/
def seamFinalBlock (n : SeamNeighbors) (generated : ImageBuf) : ImageBuf :=
  cropAndResize generated ((seamTargetX n : ℚ) * seamScale n)
    ((seamTargetY n : ℚ) * seamScale n)
    ((1024 : ℚ) * seamScale n) ((1024 : ℚ) * seamScale n) 1024 1024

/-- C5: for every neighbor configuration the crop-back uses
scale = 1024 / canvasSize, crops at (targetX * scale, targetY * scale) with
size (1024 * scale, 1024 * scale), and the resampled result is exactly
1024-by-1024; in particular with left and right neighbors present the
canvas side is 1536, the scale is 2/3, and the output is 1024-by-1024. -/
theorem c5_inverse_crop :
    (∀ (n : SeamNeighbors) (g : ImageBuf),
      seamScale n = 1024 / (seamCanvasSize n : ℚ) ∧
      seamFinalBlock n g =
        cropAndResize g ((seamTargetX n : ℚ) * seamScale n)
          ((seamTargetY n : ℚ) * seamScale n)
          (1024 * seamScale n) (1024 * seamScale n) 1024 1024 ∧
      (seamFinalBlock n g).width = 1024 ∧
      (seamFinalBlock n g).height = 1024) ∧
    (∀ (sl sr : ImageBuf) (g : ImageBuf),
      seamCanvasSize (SeamNeighbors.mk (some sl) (some sr) none none) = 1536 ∧
      seamScale (SeamNeighbors.mk (some sl) (some sr) none none) = 2 / 3 ∧
      seamTargetX (SeamNeighbors.mk (some sl) (some sr) none none) = 256 ∧
      (seamFinalBlock (SeamNeighbors.mk (some sl) (some sr) none none) g).width
        = 1024 ∧
      (seamFinalBlock (SeamNeighbors.mk (some sl) (some sr) none none) g).height
        = 1024) := by
  constructor
  · intro n g
    exact ⟨rfl, rfl, rfl, rfl⟩
  · intro sl sr g
    have hcs : seamCanvasSize (SeamNeighbors.mk (some sl) (some sr) none none)
        = 1536 := by
      simp [seamCanvasSize, seamContentW, seamContentH]
    refine ⟨hcs, ?_, by simp [seamTargetX], rfl, rfl⟩
    rw [seamScale, hcs]
    norm_num

/-- One 2d-context paint operation performed while assembling the
stitching canvas of generateSeamlessTexture. -/
inductive CanvasOp where
  | fillRect (color : Color) (x y w h : Nat)
  | drawImage (img : ImageBuf) (x y : Nat)

/-- The drawImage calls issued (inside loadAndDraw, during the first
Promise.all) for the present neighbor strips, in the order the promises are
pushed: left at (0, targetY), right at (targetX + 1024, targetY), top at
(targetX, 0), bottom at (targetX, targetY + 1024). -/
def seamStripOps (n : SeamNeighbors) : List CanvasOp :=
  (match n.left with
    | some img => [CanvasOp.drawImage img 0 (seamTargetY n)]
    | none => []) ++
  (match n.right with
    | some img => [CanvasOp.drawImage img (seamTargetX n + 1024) (seamTargetY n)]
    | none => []) ++
  (match n.top with
    | some img => [CanvasOp.drawImage img (seamTargetX n) 0]
    | none => []) ++
  (match n.bottom with
    | some img => [CanvasOp.drawImage img (seamTargetX n) (seamTargetY n + 1024)]
    | none => [])

/-- The paint operations generateSeamlessTexture actually executes, in
execution order: the #222222 background fill, the neighbor-strip blits
(all completed by the first await of Promise.all(promises)), then the
magenta fill of the new-tile region. The source then awaits the very same
promises array a second time; those promises are already settled, so the
drawImage side effects inside loadAndDraw do not run again and the second
await contributes no paint operation. -/
def seamlessPaintOpsExecuted (n : SeamNeighbors) : List CanvasOp :=
  CanvasOp.fillRect (Color.mk 34 34 34 255) 0 0 (seamCanvasSize n)
      (seamCanvasSize n) ::
    seamStripOps n ++
    [CanvasOp.fillRect (Color.mk 255 0 255 255) (seamTargetX n) (seamTargetY n)
      1024 1024]

/-- Modelled from the spec: the paint order the spec (and the comment in the
source above the second await) describes, with the neighbor strips blitted
once more on top of the marker fill. -/
def seamlessPaintOpsSpec (n : SeamNeighbors) : List CanvasOp :=
  seamlessPaintOpsExecuted n ++ seamStripOps n

/-- C4: with a left neighbor present, the executed paint sequence is
background fill, one strip blit, magenta fill - and nothing after the
magenta fill - so it differs from the claimed sequence, which ends with the
strips blitted once more on top of the marker fill. -/
theorem c4_reblit_missing (strip : ImageBuf) :
    seamlessPaintOpsExecuted (SeamNeighbors.mk (some strip) none none none) =
      [CanvasOp.fillRect (Color.mk 34 34 34 255) 0 0 1280 1280,
        CanvasOp.drawImage strip 0 0,
        CanvasOp.fillRect (Color.mk 255 0 255 255) 256 0 1024 1024] ∧
    seamlessPaintOpsExecuted (SeamNeighbors.mk (some strip) none none none) ≠
      seamlessPaintOpsSpec (SeamNeighbors.mk (some strip) none none none) := by
  constructor
  · rfl
  · intro h
    have := congrArg List.length h
    simp [seamlessPaintOpsSpec, seamlessPaintOpsExecuted, seamStripOps] at this

/-- One part of a Gemini generateContent response candidate; the payload of
an inlineData part is identified with its decoded pixel buffer. -/
structure GenPart where
  inlineData : Option ImageBuf

/-- generateMapAsset of src/services/geminiService.ts at its interface: a
transport error is re-thrown unchanged; otherwise the first part carrying
inlineData is returned, and if no part carries image data the call throws
"No image data found in response". -/
def generateMapAsset (response : Except String (List GenPart)) :
    Except String ImageBuf :=
  match response with
  | Except.error e => Except.error e
  | Except.ok parts =>
    match parts.findSome? (fun p => p.inlineData) with
    | some img => Except.ok img
    | none => Except.error "No image data found in response"

/-- The isolated (mode 3) path of handleGenerateAsset in src/App.tsx: on a
successful generation the magenta background is removed and a 256-by-256
object layer at the viewport center is committed with
zIndex = layers.length + 10; on a thrown error the catch branch only sets
the error toast and the scene and history are left untouched. -/
def handleGenerateAssetIsolated (s : AppState) (prompt : String) (now : Int)
    (response : Except String (List GenPart)) : AppState :=
  match generateMapAsset response with
  | Except.error e => { s with errorMsg := some e }
  | Except.ok raw =>
    let finalImageData := removeMagentaBackground raw
    let newLayer : MapLayer :=
      MapLayer.mk ("layer-" ++ toString now) prompt LayerType.object
        finalImageData (s.viewX + 512 - 128) (s.viewY + 512 - 128) 256 256
        true ((s.layers.length : Int) + 10)
    addToHistory s (s.layers ++ [newLayer])

/-- C3: when the external call fails in transport or returns no image
payload, generateMapAsset throws, and the committing operation leaves the
layer list, the history sequence and the history cursor exactly as they
were - no partial layer is added and no retry happens. -/
theorem c3_generation_failure_atomic (s : AppState) (prompt : String)
    (now : Int) (resp : Except String (List GenPart))
    (hfail : (∃ e, resp = Except.error e) ∨
      ∃ parts, resp = Except.ok parts ∧
        parts.findSome? (fun p => p.inlineData) = none) :
    (∃ e, generateMapAsset resp = Except.error e) ∧
    (handleGenerateAssetIsolated s prompt now resp).layers = s.layers ∧
    (handleGenerateAssetIsolated s prompt now resp).history = s.history ∧
    (handleGenerateAssetIsolated s prompt now resp).historyIndex =
      s.historyIndex := by
  rcases hfail with ⟨e, he⟩ | ⟨parts, hp, hnone⟩
  · subst he
    exact ⟨⟨e, rfl⟩, rfl, rfl, rfl⟩
  · subst hp
    refine ⟨⟨"No image data found in response", ?_⟩, ?_, ?_, ?_⟩ <;>
      simp [generateMapAsset, handleGenerateAssetIsolated, hnone]

/-- Concrete instance of C3: a transport error leaves the bootstrap state's
scene and history untouched. -/
theorem c3_generation_failure_atomic_witness :
    (∃ e, generateMapAsset (Except.error "network down") =
      Except.error e) ∧
    (handleGenerateAssetIsolated witAppState "a tree" 7
        (Except.error "network down")).layers = witAppState.layers ∧
    (handleGenerateAssetIsolated witAppState "a tree" 7
        (Except.error "network down")).history = witAppState.history ∧
    (handleGenerateAssetIsolated witAppState "a tree" 7
        (Except.error "network down")).historyIndex =
      witAppState.historyIndex :=
  c3_generation_failure_atomic witAppState "a tree" 7
    (Except.error "network down") (Or.inl ⟨"network down", rfl⟩)

/-- The 64-by-64 bootstrap checkerboard the initial useEffect of
src/App.tsx paints: a #1a2e1a fill, then #223822 over the squares
(0,0,32,32) and (32,32,32,32). -/
def bootstrapBuf : ImageBuf :=
  { width := 64
    height := 64
    pix := fun x y =>
      if (x < 32 ∧ y < 32) ∨ (32 ≤ x ∧ x < 64 ∧ 32 ≤ y ∧ y < 64) then
        Color.mk 34 56 34 255
      else Color.mk 26 46 26 255 }

/-- The bootstrap base layer of src/App.tsx: tile (0,0), zIndex 0. -/
def initialBaseLayer : MapLayer :=
  MapLayer.mk "layer-base-0-0" "Base Start" LayerType.base bootstrapBuf
    0 0 1024 1024 true 0

/-- App state right after the bootstrap effect: one base layer, one history
entry, cursor 0, view at the origin. -/
def initialAppState : AppState :=
  AppState.mk [initialBaseLayer] [[initialBaseLayer]] 0 0 0 none

/-- Math.round(v / 1024) * 1024 as used to snap the view to the tile grid:
JavaScript Math.round rounds half toward positive infinity. -/
def snapToGrid (v : Int) : Int := ((v + 512).fdiv 1024) * 1024

/-- The base layer handleNavigate appends on success for grid cell
(gx, gy): placed at (gx * 1024, gy * 1024), zIndex 0. -/
def navigateBaseLayer (gx gy : Int) (img : ImageBuf) : MapLayer :=
  MapLayer.mk ("layer-base-" ++ toString gx ++ "-" ++ toString gy)
    ("Base (" ++ toString gx ++ "," ++ toString gy ++ ")") LayerType.base img
    (gx * 1024) (gy * 1024) 1024 1024 true 0

/-- Success path of handleNavigate in src/App.tsx: move the camera to the
target cell and commit the scene extended with the new base layer. -/
def handleNavigateCommit (s : AppState) (gx gy : Int) (img : ImageBuf) :
    AppState :=
  addToHistory { s with viewX := gx * 1024, viewY := gy * 1024 }
    (s.layers ++ [navigateBaseLayer gx gy img])

/-- Common commit tail of all three handleGenerateAsset modes in
src/App.tsx: append an object layer with the mode's processed image and
target geometry, zIndex = layers.length + 10. -/
def handleGenerateAssetCommit (s : AppState) (prompt : String) (now : Int)
    (finalImageData : ImageBuf) (tx ty tw th : Int) : AppState :=
  addToHistory s (s.layers ++
    [MapLayer.mk ("layer-" ++ toString now) prompt LayerType.object
      finalImageData tx ty tw th true ((s.layers.length : Int) + 10)])

/-- Success path of handleGenerateBase in src/App.tsx: drop any base layer
within 10 units of the snapped view cell, then commit with a fresh base
layer (zIndex 0) prepended. -/
def handleGenerateBase (s : AppState) (basePrompt : String) (now : Int)
    (img : ImageBuf) : AppState :=
  let snapX := snapToGrid s.viewX
  let snapY := snapToGrid s.viewY
  let prevLayers := s.layers.filter fun l =>
    !(decide (l.type = LayerType.base) && decide ((l.x - snapX).natAbs < 10) &&
      decide ((l.y - snapY).natAbs < 10))
  let baseLayer := MapLayer.mk
    ("layer-base-" ++ toString snapX ++ "-" ++ toString snapY ++ "-" ++
      toString now)
    ("Base: " ++ basePrompt) LayerType.base img snapX snapY 1024 1024 true 0
  addToHistory s (baseLayer :: prevLayers)

/-- handleDeleteLayer of src/App.tsx: commit the scene without the layer. -/
def handleDeleteLayer (s : AppState) (id : String) : AppState :=
  addToHistory s (s.layers.filter fun l => decide (l.id ≠ id))

/-- handleToggleVisibility of src/App.tsx: flip one layer's visibility and
commit. -/
def handleToggleVisibility (s : AppState) (id : String) : AppState :=
  addToHistory s (s.layers.map fun l =>
    if l.id = id then { l with visible := !l.visible } else l)

/-- updateLayerPosition of src/App.tsx: live drag update of one layer's
position; no history commit. -/
def updateLayerPosition (s : AppState) (id : String) (x y : Int) : AppState :=
  { s with layers := s.layers.map fun l =>
      if l.id = id then { l with x := x, y := y } else l }

/-- handleMoveEnd of src/App.tsx: commit the current (dragged) scene. -/
def handleMoveEnd (s : AppState) : AppState := addToHistory s s.layers

/-- The erase commit: MapCanvas calls onUpdateLayer with an imageData-only
update, which updateLayerData merges into the layer and commits. -/
def updateLayerImageData (s : AppState) (id : String) (newData : ImageBuf) :
    AppState :=
  addToHistory s (s.layers.map fun l =>
    if l.id = id then { l with imageData := newData } else l)

/-- Wheel or keyboard panning: moves the view only. -/
def panView (s : AppState) (dx dy : Int) : AppState :=
  { s with viewX := s.viewX + dx, viewY := s.viewY + dy }

/-- The app states reachable from the bootstrap state through the state
mutations of src/App.tsx. -/
inductive Reachable : AppState → Prop where
  | init : Reachable initialAppState
  | navigate (s : AppState) (gx gy : Int) (img : ImageBuf) :
      Reachable s → Reachable (handleNavigateCommit s gx gy img)
  | genAssetIsolated (s : AppState) (prompt : String) (now : Int)
      (resp : Except String (List GenPart)) :
      Reachable s → Reachable (handleGenerateAssetIsolated s prompt now resp)
  | genAssetCommit (s : AppState) (prompt : String) (now : Int)
      (img : ImageBuf) (tx ty tw th : Int) :
      Reachable s →
      Reachable (handleGenerateAssetCommit s prompt now img tx ty tw th)
  | genBase (s : AppState) (basePrompt : String) (now : Int)
      (img : ImageBuf) :
      Reachable s → Reachable (handleGenerateBase s basePrompt now img)
  | deleteLayer (s : AppState) (id : String) :
      Reachable s → Reachable (handleDeleteLayer s id)
  | toggleVisibility (s : AppState) (id : String) :
      Reachable s → Reachable (handleToggleVisibility s id)
  | movePos (s : AppState) (id : String) (x y : Int) :
      Reachable s → Reachable (updateLayerPosition s id x y)
  | moveEnd (s : AppState) : Reachable s → Reachable (handleMoveEnd s)
  | eraseCommit (s : AppState) (id : String) (img : ImageBuf) :
      Reachable s → Reachable (updateLayerImageData s id img)
  | pan (s : AppState) (dx dy : Int) :
      Reachable s → Reachable (panView s dx dy)
  | undo (s : AppState) : Reachable s → Reachable (handleUndo s)
  | redo (s : AppState) : Reachable s → Reachable (handleRedo s)

/-- zIndex discipline of a single layer: base layers carry zIndex 0, object
layers carry zIndex at least 10. -/
def layerZOk (l : MapLayer) : Prop :=
  (l.type = LayerType.base → l.zIndex = 0) ∧
    (l.type = LayerType.object → 10 ≤ l.zIndex)

/-- zIndex discipline of a whole scene. -/
def sceneZOk (ls : List MapLayer) : Prop := ∀ l ∈ ls, layerZOk l

/-- zIndex discipline of the current scene and every history snapshot. -/
def stateZOk (s : AppState) : Prop :=
  sceneZOk s.layers ∧ ∀ hs ∈ s.history, sceneZOk hs

theorem sceneZOk_append_one {ls : List MapLayer} {nl : MapLayer}
    (h : sceneZOk ls) (hn : layerZOk nl) : sceneZOk (ls ++ [nl]) := by
  intro l hl
  rcases List.mem_append.mp hl with hl | hl
  · exact h l hl
  · rcases List.mem_singleton.mp hl with rfl
    exact hn

theorem sceneZOk_filter {ls : List MapLayer} (p : MapLayer → Bool)
    (h : sceneZOk ls) : sceneZOk (ls.filter p) :=
  fun l hl => h l (List.mem_of_mem_filter hl)

theorem sceneZOk_map {ls : List MapLayer} {f : MapLayer → MapLayer}
    (hf : ∀ l, layerZOk l → layerZOk (f l)) (h : sceneZOk ls) :
    sceneZOk (ls.map f) := by
  intro l hl
  rcases List.mem_map.mp hl with ⟨l0, hl0, rfl⟩
  exact hf l0 (h l0 hl0)

theorem stateZOk_addToHistory {s : AppState} {nl : List MapLayer}
    (h : stateZOk s) (hn : sceneZOk nl) : stateZOk (addToHistory s nl) := by
  refine ⟨hn, ?_⟩
  intro hs hhs
  rcases List.mem_append.mp hhs with hhs | hhs
  · exact h.2 hs (List.take_subset _ _ hhs)
  · rcases List.mem_singleton.mp hhs with rfl
    exact hn

theorem sceneZOk_getD {s : AppState} (h : stateZOk s) (k : Nat) :
    sceneZOk (s.history.getD k []) := by
  rw [List.getD_eq_getElem?_getD]
  cases hk : s.history[k]? with
  | none => intro l hl; simp at hl
  | some hs =>
    exact fun l hl => h.2 hs (List.getElem?_mem hk) l hl

/-- Every reachable state satisfies the zIndex discipline, in the current
scene and in every history snapshot. -/
theorem reachable_stateZOk (s : AppState) (hs : Reachable s) : stateZOk s := by
  induction hs with
  | init =>
    refine ⟨?_, ?_⟩
    · intro l hl
      rcases List.mem_singleton.mp hl with rfl
      exact ⟨fun _ => rfl, fun hob => by simp [initialBaseLayer] at hob⟩
    · intro h hh
      rcases List.mem_singleton.mp hh with rfl
      intro l hl
      rcases List.mem_singleton.mp hl with rfl
      exact ⟨fun _ => rfl, fun hob => by simp [initialBaseLayer] at hob⟩
  | navigate s gx gy img _ ih =>
    refine stateZOk_addToHistory ⟨ih.1, ih.2⟩ ?_
    exact sceneZOk_append_one ih.1
      ⟨fun _ => rfl, fun hob => by simp [navigateBaseLayer] at hob⟩
  | genAssetIsolated s prompt now resp _ ih =>
    rw [handleGenerateAssetIsolated]
    cases hresp : generateMapAsset resp with
    | error e => exact ih
    | ok raw =>
      refine stateZOk_addToHistory ih ?_
      refine sceneZOk_append_one ih.1 ⟨fun hb => by simp at hb, fun _ => ?_⟩
      simp
  | genAssetCommit s prompt now img tx ty tw th _ ih =>
    refine stateZOk_addToHistory ih ?_
    refine sceneZOk_append_one ih.1 ⟨fun hb => by simp at hb, fun _ => ?_⟩
    simp
  | genBase s basePrompt now img _ ih =>
    refine stateZOk_addToHistory ih ?_
    intro l hl
    rcases List.mem_cons.mp hl with rfl | hl
    · exact ⟨fun _ => rfl, fun hob => by simp at hob⟩
    · exact ih.1 l (List.mem_of_mem_filter hl)
  | deleteLayer s id _ ih =>
    exact stateZOk_addToHistory ih (sceneZOk_filter _ ih.1)
  | toggleVisibility s id _ ih =>
    refine stateZOk_addToHistory ih (sceneZOk_map ?_ ih.1)
    intro l hl
    split
    · exact ⟨hl.1, hl.2⟩
    · exact hl
  | movePos s id x y _ ih =>
    refine ⟨sceneZOk_map ?_ ih.1, ih.2⟩
    intro l hl
    split
    · exact ⟨hl.1, hl.2⟩
    · exact hl
  | moveEnd s _ ih =>
    exact stateZOk_addToHistory ih ih.1
  | eraseCommit s id img _ ih =>
    refine stateZOk_addToHistory ih (sceneZOk_map ?_ ih.1)
    intro l hl
    split
    · exact ⟨hl.1, hl.2⟩
    · exact hl
  | pan s dx dy _ ih =>
    exact ⟨ih.1, ih.2⟩
  | undo s _ ih =>
    rw [handleUndo]
    split
    · exact ⟨sceneZOk_getD ih _, ih.2⟩
    · exact ih
  | redo s _ ih =>
    rw [handleRedo]
    split
    · exact ⟨sceneZOk_getD ih _, ih.2⟩
    · exact ih

/-- C9: in every reachable scene every base layer has zIndex 0 and every
object layer has zIndex at least 10, hence every object layer sits strictly
above every base layer in the z-order. -/
theorem c9_object_above_base (s : AppState) (hs : Reachable s) :
    (∀ l ∈ s.layers,
      (l.type = LayerType.base → l.zIndex = 0) ∧
        (l.type = LayerType.object → 10 ≤ l.zIndex)) ∧
    ∀ lb ∈ s.layers, ∀ lo ∈ s.layers,
      lb.type = LayerType.base → lo.type = LayerType.object →
        lb.zIndex < lo.zIndex := by
  have h := reachable_stateZOk s hs
  refine ⟨fun l hl => h.1 l hl, ?_⟩
  intro lb hlb lo hlo hb ho
  have h1 := (h.1 lb hlb).1 hb
  have h2 := (h.1 lo hlo).2 ho
  omega

/-- The object layer committed by generating an asset (timestamp 7, prompt
"tree") from the bootstrap state: zIndex = 1 + 10 = 11. -/
def witObjLayer : MapLayer :=
  MapLayer.mk "layer-7" "tree" LayerType.object (solidBuf (Color.mk 1 1 1 255))
    0 0 256 256 true 11

/-- Concrete instance of C9: after one asset generation from the bootstrap
state, the committed object layer (zIndex 11) sits strictly above the
bootstrap base layer (zIndex 0). -/
theorem c9_object_above_base_witness :
    initialBaseLayer.zIndex < witObjLayer.zIndex := by
  have hr : Reachable (handleGenerateAssetCommit initialAppState "tree" 7
      (solidBuf (Color.mk 1 1 1 255)) 0 0 256 256) :=
    Reachable.genAssetCommit initialAppState "tree" 7
      (solidBuf (Color.mk 1 1 1 255)) 0 0 256 256 Reachable.init
  have hlayers : (handleGenerateAssetCommit initialAppState "tree" 7
      (solidBuf (Color.mk 1 1 1 255)) 0 0 256 256).layers =
      [initialBaseLayer, witObjLayer] := rfl
  refine (c9_object_above_base _ hr).2 initialBaseLayer ?_ witObjLayer ?_ rfl rfl
  · rw [hlayers]
    exact List.mem_cons_self _ _
  · rw [hlayers]
    exact List.mem_cons_of_mem _ (List.mem_cons_self _ _)

/-- Alpha read of the scan canvas of getContentBounds: the mask image is
drawn at the origin of a canvasW-by-canvasH canvas, so pixels inside the
image bounds carry the image alpha and all others are transparent. -/
def alphaAt (img : ImageBuf) (x y : Nat) : Nat :=
  if x < img.width ∧ y < img.height then (img.pix x y).a else 0

/-- The scan order of the nested loops of getContentBounds: rows outermost
(y from 0 to canvasH - 1), columns innermost. -/
def scanCoords (w h : Nat) : List (Nat × Nat) :=
  (List.range h).bind fun y => (List.range w).map fun x => (x, y)

/-- The running minX, minY, maxX, maxY and found flag of the scan loop. -/
structure BoundsState where
  minX : Nat
  minY : Nat
  maxX : Nat
  maxY : Nat
  found : Bool

/-- Loop body of the getContentBounds scan: a pixel with positive alpha
pulls the four extremes toward itself and sets found. -/
def boundsStep (img : ImageBuf) (st : BoundsState) (c : Nat × Nat) :
    BoundsState :=
  if 0 < alphaAt img c.1 c.2 then
    BoundsState.mk (min st.minX c.1) (min st.minY c.2) (max st.maxX c.1)
      (max st.maxY c.2) true
  else st

/-- getContentBounds of src/services/imageUtils.ts: scan every canvas pixel
starting from minX = canvasW, minY = canvasH, maxX = maxY = 0; if no pixel
has positive alpha return null, else the rectangle from (minX, minY) with
width maxX - minX and height maxY - minY. -/
def getContentBounds (img : ImageBuf) (canvasW canvasH : Nat) : Option Rect :=
  let st := (scanCoords canvasW canvasH).foldl (boundsStep img)
    (BoundsState.mk canvasW canvasH 0 0 false)
  if st.found then
    some (Rect.mk st.minX st.minY ((st.maxX : Int) - st.minX)
      ((st.maxY : Int) - st.minY))
  else none

/-- The scanned coordinates whose alpha is positive, in scan order. -/
def contentPixels (img : ImageBuf) (w h : Nat) : List (Nat × Nat) :=
  (scanCoords w h).filter fun c => decide (0 < alphaAt img c.1 c.2)

theorem mem_scanCoords (w h : Nat) (c : Nat × Nat) :
    c ∈ scanCoords w h ↔ c.1 < w ∧ c.2 < h := by
  obtain ⟨cx, cy⟩ := c
  constructor
  · intro hc
    obtain ⟨y, hy, hc⟩ := List.mem_bind.mp hc
    obtain ⟨x, hx, he⟩ := List.mem_map.mp hc
    injection he with h1 h2
    subst h1
    subst h2
    exact ⟨List.mem_range.mp hx, List.mem_range.mp hy⟩
  · rintro ⟨h1, h2⟩
    exact List.mem_bind.mpr ⟨cy, List.mem_range.mpr h2,
      List.mem_map.mpr ⟨cx, List.mem_range.mpr h1, rfl⟩⟩

theorem foldl_min_le_self (l : List Nat) (a : Nat) : l.foldl min a ≤ a := by
  induction l generalizing a with
  | nil => exact le_refl a
  | cons x t ih => exact le_trans (ih (min a x)) (min_le_left a x)

theorem foldl_min_le_mem (l : List Nat) (a : Nat) (x : Nat) (hx : x ∈ l) :
    l.foldl min a ≤ x := by
  induction l generalizing a with
  | nil => simp at hx
  | cons y t ih =>
    rcases List.mem_cons.mp hx with rfl | hx
    · exact le_trans (foldl_min_le_self t (min a x)) (min_le_right a x)
    · exact ih (min a y) hx

theorem foldl_min_eq_or_mem (l : List Nat) (a : Nat) :
    l.foldl min a = a ∨ l.foldl min a ∈ l := by
  induction l generalizing a with
  | nil => exact Or.inl rfl
  | cons y t ih =>
    rcases ih (min a y) with h | h
    · rcases le_total a y with hay | hya
      · exact Or.inl (by rw [List.foldl_cons, h, min_eq_left hay])
      · exact Or.inr (by rw [List.foldl_cons, h, min_eq_right hya]; exact List.mem_cons_self _ _)
    · exact Or.inr (List.mem_cons_of_mem _ h)

theorem foldl_max_self_le (l : List Nat) (a : Nat) : a ≤ l.foldl max a := by
  induction l generalizing a with
  | nil => exact le_refl a
  | cons x t ih => exact le_trans (le_max_left a x) (ih (max a x))

theorem foldl_max_mem_le (l : List Nat) (a : Nat) (x : Nat) (hx : x ∈ l) :
    x ≤ l.foldl max a := by
  induction l generalizing a with
  | nil => simp at hx
  | cons y t ih =>
    rcases List.mem_cons.mp hx with rfl | hx
    · exact le_trans (le_max_right a x) (foldl_max_self_le t (max a x))
    · exact ih (max a y) hx

theorem foldl_max_eq_or_mem (l : List Nat) (a : Nat) :
    l.foldl max a = a ∨ l.foldl max a ∈ l := by
  induction l generalizing a with
  | nil => exact Or.inl rfl
  | cons y t ih =>
    rcases ih (max a y) with h | h
    · rcases le_total a y with hay | hya
      · exact Or.inr (by rw [List.foldl_cons, h, max_eq_right hay]; exact List.mem_cons_self _ _)
      · exact Or.inl (by rw [List.foldl_cons, h, max_eq_left hya])
    · exact Or.inr (List.mem_cons_of_mem _ h)

theorem foldl_boundsStep (img : ImageBuf) (l : List (Nat × Nat))
    (st : BoundsState) :
    l.foldl (boundsStep img) st =
      BoundsState.mk
        ((l.filter fun c => decide (0 < alphaAt img c.1 c.2)).foldl
          (fun m c => min m c.1) st.minX)
        ((l.filter fun c => decide (0 < alphaAt img c.1 c.2)).foldl
          (fun m c => min m c.2) st.minY)
        ((l.filter fun c => decide (0 < alphaAt img c.1 c.2)).foldl
          (fun m c => max m c.1) st.maxX)
        ((l.filter fun c => decide (0 < alphaAt img c.1 c.2)).foldl
          (fun m c => max m c.2) st.maxY)
        (st.found ||
          !(l.filter fun c => decide (0 < alphaAt img c.1 c.2)).isEmpty) := by
  induction l generalizing st with
  | nil => simp
  | cons c t ih =>
    by_cases h : 0 < alphaAt img c.1 c.2
    · rw [List.foldl_cons, boundsStep, if_pos h, ih]
      simp [List.filter_cons, h]
    · rw [List.foldl_cons, boundsStep, if_neg h, ih]
      simp [List.filter_cons, h]

theorem foldl_min_achieved (l : List Nat) (w : Nat) (hne : l ≠ [])
    (hlt : ∀ x ∈ l, x < w) : ∃ x ∈ l, l.foldl min w = x := by
  rcases foldl_min_eq_or_mem l w with hcase | hcase
  · obtain ⟨x0, hx0⟩ := List.exists_mem_of_ne_nil _ hne
    have h1 := foldl_min_le_mem l w x0 hx0
    have h2 := hlt x0 hx0
    omega
  · exact ⟨_, hcase, rfl⟩

theorem foldl_max_achieved (l : List Nat) (hne : l ≠ []) :
    ∃ x ∈ l, l.foldl max 0 = x := by
  rcases foldl_max_eq_or_mem l 0 with hcase | hcase
  · obtain ⟨x0, hx0⟩ := List.exists_mem_of_ne_nil _ hne
    have h1 := foldl_max_mem_le l 0 x0 hx0
    exact ⟨x0, hx0, by omega⟩
  · exact ⟨_, hcase, rfl⟩

/-- A 4-by-4 mask with a single non-transparent pixel at (2, 1). -/
def onePixelMask : ImageBuf :=
  { width := 4
    height := 4
    pix := fun x y =>
      if x = 2 ∧ y = 1 then Color.mk 255 255 255 255 else Color.mk 0 0 0 0 }

/-- getContentBounds, rephrased over the list of positive-alpha scan
coordinates: null when there is none, else the min/max rectangle. -/
theorem getContentBounds_eq_contentPixels (img : ImageBuf) (w h : Nat) :
    getContentBounds img w h =
      if (contentPixels img w h).isEmpty then none
      else some (Rect.mk
        ((((contentPixels img w h).foldl (fun m c => min m c.1) w : Nat)) : Int)
        ((((contentPixels img w h).foldl (fun m c => min m c.2) h : Nat)) : Int)
        (((((contentPixels img w h).foldl (fun m c => max m c.1) 0 : Nat)) : Int) -
          ((((contentPixels img w h).foldl (fun m c => min m c.1) w : Nat)) : Int))
        (((((contentPixels img w h).foldl (fun m c => max m c.2) 0 : Nat)) : Int) -
          ((((contentPixels img w h).foldl (fun m c => min m c.2) h : Nat)) : Int))) := by
  simp only [getContentBounds, foldl_boundsStep, contentPixels]
  by_cases he :
      ((scanCoords w h).filter fun c => decide (0 < alphaAt img c.1 c.2)).isEmpty <;>
    simp [he]

/-- C10: getContentBounds is null exactly when no in-range pixel has
positive alpha; a scan coordinate is content exactly when it is in range
with positive alpha; when a rectangle is returned it runs from the minimum
content x and y to the maximum content x and y, with width and height the
max minus the min (so the extent excludes the last pixel's own size), each
extreme being attained by some content pixel; and on a mask with the single
non-transparent pixel (2, 1) the result is that pixel with width and
height 0. -/
theorem c10_content_bounds :
    (∀ (img : ImageBuf) (w h : Nat),
      getContentBounds img w h = none ↔
        ∀ x y, x < w → y < h → alphaAt img x y = 0) ∧
    (∀ (img : ImageBuf) (w h : Nat) (c : Nat × Nat),
      c ∈ contentPixels img w h ↔
        c.1 < w ∧ c.2 < h ∧ 0 < alphaAt img c.1 c.2) ∧
    (∀ (img : ImageBuf) (w h : Nat) (r : Rect),
      getContentBounds img w h = some r →
        (∀ c ∈ contentPixels img w h,
          r.x ≤ (c.1 : Int) ∧ (c.1 : Int) ≤ r.x + r.width ∧
            r.y ≤ (c.2 : Int) ∧ (c.2 : Int) ≤ r.y + r.height) ∧
        (∃ c ∈ contentPixels img w h, (c.1 : Int) = r.x) ∧
        (∃ c ∈ contentPixels img w h, (c.2 : Int) = r.y) ∧
        (∃ c ∈ contentPixels img w h, (c.1 : Int) = r.x + r.width) ∧
        (∃ c ∈ contentPixels img w h, (c.2 : Int) = r.y + r.height)) ∧
    getContentBounds onePixelMask 4 4 = some (Rect.mk 2 1 0 0) := by
  have hmem : ∀ (img : ImageBuf) (w h : Nat) (c : Nat × Nat),
      c ∈ contentPixels img w h ↔
        c.1 < w ∧ c.2 < h ∧ 0 < alphaAt img c.1 c.2 := by
    intro img w h c
    rw [contentPixels, List.mem_filter, mem_scanCoords]
    simp [and_assoc]
  refine ⟨?_, hmem, ?_, by decide⟩
  · intro img w h
    have hiff : getContentBounds img w h = none ↔
        (contentPixels img w h).isEmpty = true := by
      rw [getContentBounds_eq_contentPixels]
      by_cases he : (contentPixels img w h).isEmpty <;> simp [he]
    rw [hiff, List.isEmpty_iff]
    constructor
    · intro hnil x y hx hy
      by_contra hne
      have hc : (x, y) ∈ contentPixels img w h :=
        (hmem img w h (x, y)).mpr ⟨hx, hy, Nat.pos_of_ne_zero hne⟩
      rw [hnil] at hc
      simp at hc
    · intro hall
      by_contra hne
      obtain ⟨c, hc⟩ := List.exists_mem_of_ne_nil _ hne
      obtain ⟨h1, h2, h3⟩ := (hmem img w h c).mp hc
      have := hall c.1 c.2 h1 h2
      omega
  · intro img w h r hr
    rw [getContentBounds_eq_contentPixels] at hr
    by_cases he : (contentPixels img w h).isEmpty
    · rw [if_pos he] at hr
      exact absurd hr (by simp)
    · rw [if_neg he] at hr
      have hrr := Option.some.inj hr
      subst hrr
      set aX := (contentPixels img w h).foldl (fun m c => min m c.1) w with haX
      set aY := (contentPixels img w h).foldl (fun m c => min m c.2) h with haY
      set dX := (contentPixels img w h).foldl (fun m c => max m c.1) 0 with hdX
      set dY := (contentPixels img w h).foldl (fun m c => max m c.2) 0 with hdY
      have hne : contentPixels img w h ≠ [] := by
        simpa [List.isEmpty_iff] using he
      have hneX : (contentPixels img w h).map Prod.fst ≠ [] := by
        simpa using hne
      have hneY : (contentPixels img w h).map Prod.snd ≠ [] := by
        simpa using hne
      have eX : ((contentPixels img w h).map Prod.fst).foldl min w = aX :=
        List.foldl_map _ _ _ _
      have eY : ((contentPixels img w h).map Prod.snd).foldl min h = aY :=
        List.foldl_map _ _ _ _
      have eXM : ((contentPixels img w h).map Prod.fst).foldl max 0 = dX :=
        List.foldl_map _ _ _ _
      have eYM : ((contentPixels img w h).map Prod.snd).foldl max 0 = dY :=
        List.foldl_map _ _ _ _
      refine ⟨?_, ?_, ?_, ?_, ?_⟩
      · intro c hc
        have b1 : aX ≤ c.1 :=
          eX ▸ foldl_min_le_mem _ w c.1 (List.mem_map_of_mem _ hc)
        have b2 : c.1 ≤ dX :=
          eXM ▸ foldl_max_mem_le _ 0 c.1 (List.mem_map_of_mem _ hc)
        have b3 : aY ≤ c.2 :=
          eY ▸ foldl_min_le_mem _ h c.2 (List.mem_map_of_mem _ hc)
        have b4 : c.2 ≤ dY :=
          eYM ▸ foldl_max_mem_le _ 0 c.2 (List.mem_map_of_mem _ hc)
        refine ⟨?_, ?_, ?_, ?_⟩
        · show (aX : Int) ≤ (c.1 : Int)
          omega
        · show (c.1 : Int) ≤ (aX : Int) + ((dX : Int) - (aX : Int))
          omega
        · show (aY : Int) ≤ (c.2 : Int)
          omega
        · show (c.2 : Int) ≤ (aY : Int) + ((dY : Int) - (aY : Int))
          omega
      · obtain ⟨x, hx, hxe⟩ := foldl_min_achieved
          ((contentPixels img w h).map Prod.fst) w hneX
          (by
            intro x hx
            obtain ⟨c, hc, rfl⟩ := List.mem_map.mp hx
            exact ((hmem img w h c).mp hc).1)
        obtain ⟨c, hc, rfl⟩ := List.mem_map.mp hx
        refine ⟨c, hc, ?_⟩
        show ((c.1 : Nat) : Int) = (aX : Int)
        have hca : c.1 = aX := hxe ▸ eX
        omega
      · obtain ⟨y, hy, hye⟩ := foldl_min_achieved
          ((contentPixels img w h).map Prod.snd) h hneY
          (by
            intro y hy
            obtain ⟨c, hc, rfl⟩ := List.mem_map.mp hy
            exact ((hmem img w h c).mp hc).2.1)
        obtain ⟨c, hc, rfl⟩ := List.mem_map.mp hy
        refine ⟨c, hc, ?_⟩
        show ((c.2 : Nat) : Int) = (aY : Int)
        have hca : c.2 = aY := hye ▸ eY
        omega
      · obtain ⟨x, hx, hxe⟩ := foldl_max_achieved
          ((contentPixels img w h).map Prod.fst) hneX
        obtain ⟨c, hc, rfl⟩ := List.mem_map.mp hx
        refine ⟨c, hc, ?_⟩
        show ((c.1 : Nat) : Int) = (aX : Int) + ((dX : Int) - (aX : Int))
        have hca : c.1 = dX := hxe ▸ eXM
        omega
      · obtain ⟨y, hy, hye⟩ := foldl_max_achieved
          ((contentPixels img w h).map Prod.snd) hneY
        obtain ⟨c, hc, rfl⟩ := List.mem_map.mp hy
        refine ⟨c, hc, ?_⟩
        show ((c.2 : Nat) : Int) = (aY : Int) + ((dY : Int) - (aY : Int))
        have hca : c.2 = dY := hye ▸ eYM
        omega

/-- Concrete instance of C10: on the single-pixel mask the returned
rectangle (2, 1, 0, 0) contains the content pixel (2, 1) between its min
and max extents, with width and height 0. -/
theorem c10_content_bounds_witness :
    (Rect.mk 2 1 0 0).x ≤ ((2 : Nat) : Int) ∧
      ((2 : Nat) : Int) ≤ (Rect.mk 2 1 0 0).x + (Rect.mk 2 1 0 0).width ∧
      (Rect.mk 2 1 0 0).y ≤ ((1 : Nat) : Int) ∧
      ((1 : Nat) : Int) ≤ (Rect.mk 2 1 0 0).y + (Rect.mk 2 1 0 0).height :=
  (c10_content_bounds.2.2.1 onePixelMask 4 4 (Rect.mk 2 1 0 0)
    (by decide)).1 ((2 : Nat), (1 : Nat)) (by decide)
